import Mathlib

/-!
Verification of the P-CHANGE core: the password rule-set validator and
password synthesizer (src/password_generator.py) and the k-anonymity
breach-lookup client (src/password_checker.py), shallowly embedded in Lean.

Randomness is modelled as an injected stream `rand : Nat → Nat`: the n-th
call to the Python `random` module consumes draw `rand n`, reduced into the
range the call asks for (`% length` for `random.choice`, `% 10` for
`random.randint(0, 9)`, `1 + r % n` for `random.randrange(1, n + 1, 1)`).
Quantifying over all streams covers every execution of the Python code.

The fixed character-class alphabets of the Python `string` module.
-/

def ascii_lowercase : List Char := "abcdefghijklmnopqrstuvwxyz".data

def ascii_uppercase : List Char := "ABCDEFGHIJKLMNOPQRSTUVWXYZ".data

def digits : List Char := "0123456789".data

/-- Models `random.choice(l)` where the stream supplies raw draw `r`.
Python raises IndexError on an empty list; the default 'a' is never
reached at any call site proved about below (the validator guarantees the
lists are non-empty). -/
def choice (l : List Char) (r : Nat) : Char :=
  l.getD (r % l.length) 'a'

/-- `PasswordRules` (src/password_generator.py): the value object holding
all generation constraints.  Field values mirror the `__init__` defaults.
`allowed_special_characters` is a list of single characters, exactly as the
GUI builds it (`[char for char in text]`). -/
structure PasswordRules where
  min_number_of_chars : Nat := 1
  max_number_of_chars : Nat := 1
  allowed_special_characters : List Char := []
  is_lower_case_required : Bool := false
  is_upper_case_required : Bool := false
  is_number_required : Bool := false
  is_special_character_required : Bool := false
  customized_beginning : String := ""
  customized_end : String := ""

/-- Derived length, kept in sync by the Python setters. -/
def PasswordRules.length_of_customized_beginning (r : PasswordRules) : Nat :=
  r.customized_beginning.length

/-- Derived length, kept in sync by the Python setters. -/
def PasswordRules.length_of_customized_end (r : PasswordRules) : Nat :=
  r.customized_end.length

/-- `is_lower_case_rule_satisfied`: any character of the string is lower case. -/
def PasswordRules.is_lower_case_rule_satisfied (_ : PasswordRules) (s : String) : Bool :=
  s.data.any (fun c => c.isLower)

/-- `is_upper_case_rule_satisfied`: any character of the string is upper case. -/
def PasswordRules.is_upper_case_rule_satisfied (_ : PasswordRules) (s : String) : Bool :=
  s.data.any (fun c => c.isUpper)

/-- `is_number_rule_satisfied`: any character of the string is a digit. -/
def PasswordRules.is_number_rule_satisfied (_ : PasswordRules) (s : String) : Bool :=
  s.data.any (fun c => c.isDigit)

/-- `is_special_character_rule_satisfied`: any character of the string is in
`allowed_special_characters`. -/
def PasswordRules.is_special_character_rule_satisfied (r : PasswordRules) (s : String) : Bool :=
  s.data.any (fun c => r.allowed_special_characters.contains c)

/-- `get_nb_of_presence_rules`: number of selected presence rules. -/
def PasswordRules.get_nb_of_presence_rules (r : PasswordRules) : Nat :=
  (if r.is_lower_case_required then 1 else 0)
  + (if r.is_upper_case_required then 1 else 0)
  + (if r.is_number_required then 1 else 0)
  + (if r.is_special_character_required then 1 else 0)

/-- `get_nb_of_rules_satisfied_by_string`: number of selected presence rules
satisfied by the given string. -/
def PasswordRules.get_nb_of_rules_satisfied_by_string (r : PasswordRules) (s : String) : Nat :=
  (if r.is_lower_case_required && r.is_lower_case_rule_satisfied s then 1 else 0)
  + (if r.is_upper_case_required && r.is_upper_case_rule_satisfied s then 1 else 0)
  + (if r.is_number_required && r.is_number_rule_satisfied s then 1 else 0)
  + (if r.is_special_character_required && r.is_special_character_rule_satisfied s then 1 else 0)

/-- `__check_string_consistency`: True when the string breaks no rule
(no character of a class that is not required, and, when special characters
are required, no special character outside the allowed list). -/
def PasswordRules.check_string_consistency (r : PasswordRules) (s : String) : Bool :=
  if !r.is_lower_case_required && s.data.any (fun c => c.isLower) then
    false
  else if !r.is_upper_case_required && s.data.any (fun c => c.isUpper) then
    false
  else if !r.is_number_required && s.data.any (fun c => c.isDigit) then
    false
  else if !r.is_special_character_required then
    if s.data.any (fun c => !c.isDigit && !c.isAlpha) then false else true
  else if s.data.any
      (fun c => !r.allowed_special_characters.contains c && !c.isDigit && !c.isAlpha) then
    false
  else
    true

/-- `check_rules_consistency`: consistency status and reason of
inconsistency, translated check for check from the Python source, in the
same short-circuit order and with the exact reason strings.  At the
point the presence-budget comparison runs, the customized lengths are
already known to fit in `max_number_of_chars` and the number of satisfied
rules is below the number of presence rules, so the two truncated `Nat`
subtractions agree with Python's `int` arithmetic. -/
def PasswordRules.check_rules_consistency (r : PasswordRules) : Bool × String :=
  let nb_of_presence_rules := r.get_nb_of_presence_rules
  if nb_of_presence_rules = 0 then
    (false, "At least one presence rule must be selected")
  else if r.length_of_customized_beginning + r.length_of_customized_end
      > r.max_number_of_chars then
    if r.length_of_customized_beginning > r.max_number_of_chars then
      (false, "The number of customized first chars cannot be greater than 'max number of chars'")
    else if r.length_of_customized_end > r.max_number_of_chars then
      (false, "The number of customized last chars cannot be greater than 'max number of chars'")
    else
      (false, "The total number of customized chars cannot be greater than 'max number of chars'")
  else if r.length_of_customized_beginning > 0
      && !(r.check_string_consistency r.customized_beginning) then
    (false, "The customized first chars are not consistent with at least one rule")
  else if r.length_of_customized_end > 0
      && !(r.check_string_consistency r.customized_end) then
    (false, "The customized last chars are not consistent with at least one rule")
  else if r.min_number_of_chars > r.max_number_of_chars then
    (false, "'min number of chars' cannot be greater than 'max number of chars'")
  else
    let presence_failure : Option String :=
      if nb_of_presence_rules > r.min_number_of_chars then
        if r.customized_beginning = "" ∧ r.customized_end = "" then
          some "All presence rules cannot be satisfied with current 'min nb of chars'"
        else
          let nb_of_satisfied_rules := r.get_nb_of_rules_satisfied_by_string
            (r.customized_beginning ++ r.customized_end)
          if nb_of_satisfied_rules < nb_of_presence_rules
              && r.max_number_of_chars - (r.customized_beginning ++ r.customized_end).length
                < nb_of_presence_rules - nb_of_satisfied_rules then
            some "All presence rules cannot be satisfied with current settings ('max_nb_of_chars', customized beginning and customized end)"
          else
            none
      else
        none
    match presence_failure with
    | some reason => (false, reason)
    | none =>
      if r.is_special_character_required && r.allowed_special_characters.isEmpty then
        (false, "'special character' rule selected but no special character provided")
      else
        (true, "")

/-- State of `PasswordGenerator.generate` while the rule-filling loop runs:
the password built so far, the four "is it satisfied ?" marks of
`rules_states`, and the number of random draws consumed so far. -/
structure GenState where
  pw : String
  lowSat : Bool
  upSat : Bool
  numSat : Bool
  specSat : Bool
  c : Nat

/-- The `for i in range(nb_of_unsatisfied_rules)` loop of `generate`: each
iteration appends one character for the first still-unsatisfied required
rule, in the fixed order lower case, upper case, number, special character,
and marks it satisfied; the `else: break` arm stops early. -/
def fillLoop (rules : PasswordRules) (rand : Nat → Nat) : Nat → GenState → GenState
  | 0, st => st
  | n + 1, st =>
    if rules.is_lower_case_required && !st.lowSat then
      fillLoop rules rand n
        { st with pw := st.pw.push (choice ascii_lowercase (rand st.c)),
                  lowSat := true, c := st.c + 1 }
    else if rules.is_upper_case_required && !st.upSat then
      fillLoop rules rand n
        { st with pw := st.pw.push (choice ascii_uppercase (rand st.c)),
                  upSat := true, c := st.c + 1 }
    else if rules.is_number_required && !st.numSat then
      fillLoop rules rand n
        { st with pw := st.pw.push (Nat.digitChar (rand st.c % 10)),
                  numSat := true, c := st.c + 1 }
    else if rules.is_special_character_required && !st.specSat then
      fillLoop rules rand n
        { st with pw := st.pw.push (choice rules.allowed_special_characters (rand st.c)),
                  specSat := true, c := st.c + 1 }
    else
      st

/-- The pool `additional_chars` of `generate`: the union of the alphabets of
the classes whose presence rule is selected (a class not required
contributes nothing). -/
def additional_chars (rules : PasswordRules) : List Char :=
  (if rules.is_lower_case_required then ascii_lowercase else [])
  ++ (if rules.is_upper_case_required then ascii_uppercase else [])
  ++ (if rules.is_number_required then digits else [])
  ++ (if rules.is_special_character_required then rules.allowed_special_characters else [])

/-- `for i in range(k): password += random.choice(additional_chars)`. -/
def appendChoices (pool : List Char) (rand : Nat → Nat) :
    Nat → String → Nat → String × Nat
  | 0, pw, c => (pw, c)
  | n + 1, pw, c => appendChoices pool rand n (pw.push (choice pool (rand c))) (c + 1)

/-- The local `customized_string` of `generate`. -/
def customized_string (rules : PasswordRules) : String :=
  rules.customized_beginning ++ rules.customized_end

/-- The branch condition of `generate`: is there a customized beginning or
end ? -/
def has_customization (rules : PasswordRules) : Bool :=
  rules.length_of_customized_beginning > 0 || rules.length_of_customized_end > 0

/-- The local `nb_of_unsatisfied_rules` of `generate`. -/
def nb_of_unsatisfied_rules (rules : PasswordRules) : Nat :=
  if has_customization rules then
    rules.get_nb_of_presence_rules
      - rules.get_nb_of_rules_satisfied_by_string (customized_string rules)
  else
    rules.get_nb_of_presence_rules

/-- The `rules_states` dict of `generate` just before its filling loop:
the password is seeded with the customized beginning; a "satisfied" mark is
set only when some customized string exists, at least one rule is satisfied
by it, and the class is required and satisfied by the customized string. -/
def init_state (rules : PasswordRules) : GenState :=
  if has_customization rules
      && decide (rules.get_nb_of_rules_satisfied_by_string (customized_string rules) > 0) then
    { pw := rules.customized_beginning
      lowSat := rules.is_lower_case_required
        && rules.is_lower_case_rule_satisfied (customized_string rules)
      upSat := rules.is_upper_case_required
        && rules.is_upper_case_rule_satisfied (customized_string rules)
      numSat := rules.is_number_required
        && rules.is_number_rule_satisfied (customized_string rules)
      specSat := rules.is_special_character_required
        && rules.is_special_character_rule_satisfied (customized_string rules)
      c := 0 }
  else
    { pw := rules.customized_beginning
      lowSat := false, upSat := false, numSat := false, specSat := false, c := 0 }

/-- `generate` after its filling loop and the random completion with
`nb_of_chars_left` extra characters (`random.randrange(1, nb + 1, 1)` of
them when `nb > 0`).  `nb_of_chars_left` is computed in `Int` because
Python's subtraction can go negative here. -/
def after_fill (rules : PasswordRules) (rand : Nat → Nat) : String × Nat :=
  let st1 := fillLoop rules rand (nb_of_unsatisfied_rules rules) (init_state rules)
  let nb_of_chars_left : Int :=
    (rules.max_number_of_chars : Int) - st1.pw.length - rules.length_of_customized_end
  if nb_of_chars_left > 0 then
    appendChoices (additional_chars rules) rand
      (1 + rand st1.c % nb_of_chars_left.toNat) st1.pw (st1.c + 1)
  else
    (st1.pw, st1.c)

/-- `generate` after the top-up loop that guarantees at least
`min_number_of_chars` characters. -/
def after_topup (rules : PasswordRules) (rand : Nat → Nat) : String × Nat :=
  let filled := after_fill rules rand
  let deficit : Int :=
    (rules.min_number_of_chars : Int)
      - (filled.1.length + rules.length_of_customized_end)
  if deficit > 0 then
    appendChoices (additional_chars rules) rand deficit.toNat filled.1 filled.2
  else
    filled

/-- The password `generate` builds once the rules passed validation:
customized beginning, one character per still-unsatisfied required rule,
the random completion, the top-up, and the customized end. -/
def generate_body (rules : PasswordRules) (rand : Nat → Nat) : String :=
  if rules.length_of_customized_end > 0 then
    (after_topup rules rand).1 ++ rules.customized_end
  else
    (after_topup rules rand).1

/-- `PasswordGenerator.generate` (src/password_generator.py): re-validates
the rules, raising `PasswordRuleError(reason)` (modelled as `Except.error
reason`) when they are inconsistent, then builds the password. -/
def generate (rules : PasswordRules) (rand : Nat → Nat) : Except String String :=
  match rules.check_rules_consistency with
  | (false, inconsistency_reason) => Except.error inconsistency_reason
  | (true, _) => Except.ok (generate_body rules rand)

/-!
Breach-lookup client, src/password_checker.py.

The two external collaborators are injected: `sha1hex` stands for
`hashlib.sha1(password.encode("utf-8")).hexdigest().upper()` (a library
call whose internals are not repository code), and `net` maps a url to the
HTTP response returned by `requests.get`.  Every function that performs
network traffic also returns the list of urls it requested, so that
"exactly one outbound request" is a provable statement.
-/

/-- The part of a `requests` response the checker reads. -/
structure HttpResponse where
  status_code : Nat
  text : String

/-- A Python value that is either a `str` or a non-negative `int`: the
checker's internal result type is this union (the leak count is the raw
count string from the response body, the no-match result and error results
differ in type). -/
inductive PyVal where
  | str : String → PyVal
  | int : Nat → PyVal
deriving DecidableEq

/-- Python truthiness of a `PyVal`, as used by `if count:`. -/
def PyVal.truthy : PyVal → Bool
  | .str s => s ≠ ""
  | .int n => n ≠ 0

/-- Python `str()` of a `PyVal`, as used by f-string interpolation. -/
def PyVal.pyStr : PyVal → String
  | .str s => s
  | .int n => toString n

/-- `__request_api_data`: perform one GET; raise `RuntimeError` (modelled
as `Except.error` carrying the exact message) on any non-200 status. -/
def request_api_data (net : String → HttpResponse) (url : String) :
    Except String HttpResponse :=
  let response := net url
  if response.status_code ≠ 200 then
    Except.error ("Error fetching : response status code = "
      ++ toString response.status_code ++ ", check the API and try again")
  else
    Except.ok response

/-- Python `str.split(sep)` for a one-character separator, over the
character list: splitting the empty string gives one empty piece. -/
def splitOnChar (sep : Char) : List Char → List (List Char)
  | [] => [[]]
  | c :: rest =>
    match splitOnChar sep rest with
    | [] => [[]]
    | grp :: grps => if c = sep then [] :: grp :: grps else (c :: grp) :: grps

/-- The line boundaries of Python `str.splitlines`: line feed, carriage
return, vertical tab, form feed, the separator controls FS/GS/RS, next
line, line separator and paragraph separator (`\r\n` is treated as one
boundary by normalizing it to `\n` first). -/
def isPyLineBreak (c : Char) : Bool :=
  c = '\n' || c = '\r' || c = '\x0b' || c = '\x0c' || c = '\x1c' || c = '\x1d'
    || c = '\x1e' || c = '\x85' || c = '\u2028' || c = '\u2029'

/-- Collapse every `\r\n` pair into a single `\n`, so that it counts as
one line boundary, as `str.splitlines` does. -/
def normalizeCRLF : List Char → List Char
  | [] => []
  | '\r' :: '\n' :: rest => '\n' :: normalizeCRLF rest
  | c :: rest => c :: normalizeCRLF rest

/-- Split at every character satisfying the predicate: splitting the empty
list gives one empty piece. -/
def splitOnPred (p : Char → Bool) : List Char → List (List Char)
  | [] => [[]]
  | c :: rest =>
    match splitOnPred p rest with
    | [] => [[]]
    | grp :: grps => if p c then [] :: grp :: grps else (c :: grp) :: grps

/-- Python `str.splitlines`: split at every line boundary (with `\r\n` as
a single boundary); unlike `split`, a trailing boundary produces no final
empty line and the empty text has no lines at all. -/
def pySplitlines (s : List Char) : List (List Char) :=
  let parts := splitOnPred isPyLineBreak (normalizeCRLF s)
  if parts.getLast? = some [] then parts.dropLast else parts

/-- The scan of `__get_pwd_leaks_count` over the split lines: the first
record whose tail equals `hashed_pwd_tail` yields its count as the raw
string; no match yields the int 0; a line that does not split into exactly
two fields raises `ValueError` in Python (modelled as `none`). -/
def lookupLines (hashed_pwd_tail : List Char) : List (List Char) → Option PyVal
  | [] => some (PyVal.int 0)
  | line :: rest =>
    match splitOnChar ':' line with
    | [tail, count] =>
      if tail = hashed_pwd_tail then some (PyVal.str ⟨count⟩)
      else lookupLines hashed_pwd_tail rest
    | _ => none

/-- `__get_pwd_leaks_count` (src/password_checker.py). -/
def get_pwd_leaks_count (hashes : HttpResponse) (hashed_pwd_tail : String) : Option PyVal :=
  lookupLines hashed_pwd_tail.data (pySplitlines hashes.text.data)

/-- The base of the range-endpoint url. -/
def api_url_base : String := "https://api.pwnedpasswords.com/range/"

/-- `__pwned_api_check`: hash the password, keep the first 5 characters and
the 35-character tail, query the range endpoint with the first 5 characters
only, and on network failure return the descriptive string instead of a
count.  Python's character-based slicing `sha1_pwd[:5]` / `sha1_pwd[5:]` is
`List.take` / `List.drop` on the character list. -/
def pwned_api_check (sha1hex : String → String) (net : String → HttpResponse)
    (password : String) : Option PyVal × List String :=
  let sha1_pwd := sha1hex password
  let first_5_chars : String := ⟨sha1_pwd.data.take 5⟩
  let tail : String := ⟨sha1_pwd.data.drop 5⟩
  let url := api_url_base ++ first_5_chars
  match request_api_data net url with
  | Except.error e =>
    (some (PyVal.str ("Failed to get the information (" ++ e ++ ")")), [url])
  | Except.ok response =>
    (get_pwd_leaks_count response tail, [url])

/-- `PasswordChecker.check`: the result string shown to the user (`none`
models an uncaught `ValueError` escaping from the body parse), paired with
the list of urls requested during the call. -/
def check (sha1hex : String → String) (net : String → HttpResponse)
    (password : String) (has_to_be_hidden : Bool) : Option String × List String :=
  if password ≠ "" then
    match pwned_api_check sha1hex net password with
    | (some count, reqs) =>
      let password_string := if !has_to_be_hidden then password else "This password"
      if count.truthy then
        (some (password_string ++ " has already been exposed in data breaches ("
          ++ count.pyStr ++ " times) : you should probably change it !!"), reqs)
      else
        (some (password_string ++ " has never been exposed in data breaches : you can keep it :-)"), reqs)
    | (none, reqs) => (none, reqs)
  else
    (some "Empty password provided. No reason to check it !", [])

/-- The upper-case hexadecimal alphabet: every character of
`hexdigest().upper()` belongs to it. -/
def hex_upper_alphabet : List Char := "0123456789ABCDEF".data

/-!
Concrete rule sets used by the claims.
-/

/-- A rule set every check of the validator accepts, although three
presence rules are still unsatisfied by the customized beginning "ab"
while only `4 - 2 = 2` free positions remain below `max_number_of_chars`:
the presence-budget check is only reached when the number of presence
rules exceeds `min_number_of_chars`, which `4 > 4` is not. -/
def rules_budget_gap : PasswordRules :=
  { min_number_of_chars := 4, max_number_of_chars := 4,
    allowed_special_characters := ['!'],
    is_lower_case_required := true, is_upper_case_required := true,
    is_number_required := true, is_special_character_required := true,
    customized_beginning := "ab" }

/-- Concrete scenario B of the spec, as written: max 3, customized
beginning "AB1", lower case, upper case and number required. -/
def rules_scenario_b : PasswordRules :=
  { max_number_of_chars := 3, customized_beginning := "AB1",
    is_lower_case_required := true, is_upper_case_required := true,
    is_number_required := true }

/-- Scenario B amended: "AB1" contains no lower-case letter, so only the
two classes it does satisfy (upper case and number) are required. -/
def rules_scenario_b_amended : PasswordRules :=
  { max_number_of_chars := 3, customized_beginning := "AB1",
    is_upper_case_required := true, is_number_required := true }

/-- Concrete scenario C of the spec, as written: max 2, customized
beginning "AB1", everything else at its default (no presence rule). -/
def rules_scenario_c : PasswordRules :=
  { max_number_of_chars := 2, customized_beginning := "AB1" }

/-- Scenario C amended: one presence rule selected, so that the first
validator check passes and the length check is reached. -/
def rules_scenario_c_amended : PasswordRules :=
  { max_number_of_chars := 2, customized_beginning := "AB1",
    is_number_required := true }

/-- A consistent rule set in which only the special-character class is
required and its alphabet is the lower-case letter 'a'. -/
def rules_special_overlap : PasswordRules :=
  { allowed_special_characters := ['a'], is_special_character_required := true }

/-- The default rule set of `PasswordRules.__init__`: no presence rule is
selected, so validation rejects it. -/
def default_rules : PasswordRules := {}

/-- C1: the claim that every rule set accepted by `check_rules_consistency`
generates a password of length between `min_number_of_chars` and
`max_number_of_chars` fails on the code: `rules_budget_gap` is accepted,
yet `generate` deterministically appends one character for each of the
three unsatisfied presence rules after the 2-character customized
beginning and returns a 5-character password although
`max_number_of_chars = 4` (here shown for the zero randomness stream,
where the password is "abA0!"). -/
theorem c1_generate_can_exceed_max_on_accepted_rules :
    rules_budget_gap.check_rules_consistency = (true, "")
    ∧ generate rules_budget_gap (fun _ => 0) = Except.ok "abA0!"
    ∧ "abA0!".length = 5
    ∧ rules_budget_gap.max_number_of_chars = 4 :=
  ⟨rfl, rfl, rfl, rfl⟩

/-- C2: the claim that validation rejects every rule set whose number of
still-unsatisfied presence rules exceeds the free room
`max_number_of_chars - length of the customized strings` fails on the
code: in `rules_budget_gap` three rules are unsatisfied by "ab" and only
two free positions exist, yet the validator answers Consistent, because
its presence-budget check is guarded by
`nb_of_presence_rules > min_number_of_chars`. -/
theorem c2_validator_misses_presence_budget_overflow :
    rules_budget_gap.check_rules_consistency = (true, "")
    ∧ rules_budget_gap.max_number_of_chars
        - (rules_budget_gap.customized_beginning ++ rules_budget_gap.customized_end).length
      < rules_budget_gap.get_nb_of_presence_rules
        - rules_budget_gap.get_nb_of_rules_satisfied_by_string
            (rules_budget_gap.customized_beginning ++ rules_budget_gap.customized_end)
    ∧ ¬ rules_budget_gap.get_nb_of_presence_rules > rules_budget_gap.min_number_of_chars :=
  ⟨rfl, by decide, by decide⟩

/-- C3 counterexample: `rules_special_overlap` is accepted by the
validator, and for the zero randomness stream `generate` returns "a",
whose single generated (non-customized) character is a lower-case letter
although the lower-case presence rule is not selected: with an
`allowed_special_characters` alphabet that overlaps another class, a
character of a class that is not required can appear in the generated
portion, so the claim as stated is false. -/
theorem c3_counterexample_unrequested_class_char :
    rules_special_overlap.check_rules_consistency = (true, "")
    ∧ generate rules_special_overlap (fun _ => 0) = Except.ok "a"
    ∧ rules_special_overlap.is_lower_case_required = false
    ∧ 'a'.isLower = true
    ∧ rules_special_overlap.customized_beginning = ""
    ∧ rules_special_overlap.customized_end = "" :=
  ⟨rfl, rfl, rfl, rfl, rfl, rfl⟩

/-- C4 counterexample: scenario B as written is rejected, not accepted:
"AB1" satisfies only the upper-case and number rules, the lower-case rule
stays unsatisfied, and no free position is left below
`max_number_of_chars = 3`, so validation answers the presence-settings
inconsistency, and `generate` raises `PasswordRuleError` instead of
returning "AB1". -/
theorem c4_counterexample_scenario_b_rejected :
    rules_scenario_b.check_rules_consistency
      = (false, "All presence rules cannot be satisfied with current settings ('max_nb_of_chars', customized beginning and customized end)")
    ∧ generate rules_scenario_b (fun _ => 0)
      = Except.error "All presence rules cannot be satisfied with current settings ('max_nb_of_chars', customized beginning and customized end)" :=
  ⟨rfl, rfl⟩

/-- C4 amended: with `max_number_of_chars = 3`, customized beginning
"AB1", and exactly the classes "AB1" satisfies (upper case and number)
required, validation answers Consistent and `generate` returns exactly
"AB1" for every randomness stream. -/
theorem c4_scenario_b_amended_generates_exactly_prefix_string :
    rules_scenario_b_amended.check_rules_consistency = (true, "")
    ∧ ∀ rand : Nat → Nat, generate rules_scenario_b_amended rand = Except.ok "AB1" :=
  ⟨rfl, fun _ => rfl⟩

/-- C5 counterexample: scenario C as written (no presence rule selected)
is rejected by the first validator check, whose reason is the
presence-rule message, not the customized-first-chars message the claim
names: the validator short-circuits in its fixed priority order and
`presence_rule_count == 0` is checked before the length of the customized
beginning. -/
theorem c5_counterexample_presence_check_fires_first :
    rules_scenario_c.check_rules_consistency
      = (false, "At least one presence rule must be selected") :=
  rfl

/-- C5 amended: with at least one presence rule selected (here the number
rule), the rule set with `max_number_of_chars = 2` and customized
beginning "AB1" is rejected with the customized-first-chars reason. -/
theorem c5_scenario_c_amended_first_chars_reason :
    rules_scenario_c_amended.check_rules_consistency
      = (false, "The number of customized first chars cannot be greater than 'max number of chars'") :=
  rfl

/-- C10: `generate` re-validates the rules at the start of every call:
whenever `check_rules_consistency` answers `(False, reason)`, `generate`
raises `PasswordRuleError` carrying exactly that reason and produces no
password, for every randomness stream. -/
theorem c10_generate_revalidates_and_raises (rules : PasswordRules) (rand : Nat → Nat)
    (reason : String) (h : rules.check_rules_consistency = (false, reason)) :
    generate rules rand = Except.error reason := by
  unfold generate
  rw [h]

/-- Witness for C10 at the default rule set, which the validator rejects
because no presence rule is selected. -/
theorem c10_witness :
    generate default_rules (fun _ => 0)
      = Except.error "At least one presence rule must be selected" :=
  c10_generate_revalidates_and_raises default_rules (fun _ => 0) _ rfl

/-!
Breach-checker claims.
-/

/-- A stand-in for the SHA-1 upper-case hex digest: a fixed 40-character
upper-case hexadecimal string. -/
def sha1hex_const : String → String :=
  fun _ => "0123456789ABCDEF0123456789ABCDEF01234567"

/-- A remote service that always answers 200 with an empty body. -/
def net_ok_empty : String → HttpResponse :=
  fun _ => { status_code := 200, text := "" }

/-- A remote service that always answers 500. -/
def net_error_500 : String → HttpResponse :=
  fun _ => { status_code := 500, text := "" }

/-- C9: for the empty password, `check` short-circuits: it returns the
informational "nothing to check" message as a normal (non-error) result
and performs no network request, for every hash function, every remote
service and either hiding mode. -/
theorem c9_empty_password_short_circuits (sha1hex : String → String)
    (net : String → HttpResponse) (has_to_be_hidden : Bool) :
    check sha1hex net "" has_to_be_hidden
      = (some "Empty password provided. No reason to check it !", []) :=
  rfl

/-- C7: the claim that a non-success HTTP status makes `check` fail with a
distinct network-error result and no exposure count fails on the code:
with the remote service answering 500, `check` does attempt exactly one
request with no retry, but it catches the internal `RuntimeError` and
returns the describing string in place of the count, so the user is told
the password "has already been exposed in data breaches (<error text>
times)" — a success-shaped answer, not an error. -/
theorem c7_http_500_reported_as_exposure_message :
    check sha1hex_const net_error_500 "pw" true
      = (some ("This password has already been exposed in data breaches ("
          ++ "Failed to get the information (Error fetching : response status code = 500, check the API and try again)"
          ++ " times) : you should probably change it !!"),
         ["https://api.pwnedpasswords.com/range/01234"]) :=
  rfl

/-- Helper for C8: if every line of the list splits into exactly two
fields and no line's first field equals the searched tail, the scan
returns the int 0. -/
theorem lookupLines_no_match (hashed_pwd_tail : List Char) :
    ∀ lines : List (List Char),
      (∀ line ∈ lines, (splitOnChar ':' line).length = 2
        ∧ (splitOnChar ':' line).head? ≠ some hashed_pwd_tail) →
      lookupLines hashed_pwd_tail lines = some (PyVal.int 0) := by
  intro lines
  induction lines with
  | nil => intro _; rfl
  | cons line rest ih =>
    intro h
    obtain ⟨h2, hne⟩ := h line (List.mem_cons_self line rest)
    have hrest := fun l hl => h l (List.mem_cons_of_mem line hl)
    match hsp : splitOnChar ':' line with
    | [] => rw [hsp] at h2; simp at h2
    | [t] => rw [hsp] at h2; simp at h2
    | t :: c :: u :: v => rw [hsp] at h2; simp at h2
    | [t, c] =>
      rw [hsp] at hne
      simp only [List.head?] at hne
      have ht : t ≠ hashed_pwd_tail := fun he => hne (by rw [he])
      unfold lookupLines
      rw [hsp]
      simp only [ht, if_false]
      exact ih hrest

/-- Helper for C8: the scan stops at the first record whose tail equals
the searched tail and returns that record's count; the records before it
must be well-formed (two fields) and non-matching, while the records after
it are never read (Python's generator is lazy). -/
theorem lookupLines_first_match (hashed_pwd_tail cnt : List Char) :
    ∀ (pre post : List (List Char)) (line : List Char),
      (∀ l ∈ pre, (splitOnChar ':' l).length = 2
        ∧ (splitOnChar ':' l).head? ≠ some hashed_pwd_tail) →
      splitOnChar ':' line = [hashed_pwd_tail, cnt] →
      lookupLines hashed_pwd_tail (pre ++ line :: post)
        = some (PyVal.str ⟨cnt⟩) := by
  intro pre
  induction pre with
  | nil =>
    intro post line _ hline
    show lookupLines hashed_pwd_tail (line :: post) = _
    unfold lookupLines
    rw [hline]
    simp
  | cons l rest ih =>
    intro post line h hline
    obtain ⟨h2, hne⟩ := h l (List.mem_cons_self l rest)
    match hsp : splitOnChar ':' l with
    | [] => rw [hsp] at h2; simp at h2
    | [t] => rw [hsp] at h2; simp at h2
    | t :: c :: u :: v => rw [hsp] at h2; simp at h2
    | [t, c] =>
      rw [hsp] at hne
      simp only [List.head?] at hne
      have ht : t ≠ hashed_pwd_tail := fun he => hne (by rw [he])
      show lookupLines hashed_pwd_tail (l :: (rest ++ line :: post)) = _
      unfold lookupLines
      rw [hsp]
      simp only [ht, if_false]
      exact ih post line (fun x hx => h x (List.mem_cons_of_mem l hx)) hline

/-- C8 amended: `__get_pwd_leaks_count` splits the response body with
Python's `splitlines` semantics and scans the `TAIL:COUNT` records in
order: whenever the split lines decompose as well-formed non-matching
records, then a record whose first field equals the locally computed hash
tail (case-SENSITIVE string comparison), then anything, the lookup returns
that first matching record's count — as the raw decimal string of the
record, later records never read; it returns the int 0 when every record
is well-formed and none matches; for the spec's canned body it returns the
count string "3533661", the decimal spelling of 3533661, and a tail absent
from that body yields 0. -/
theorem c8_first_exact_match_count :
    (∀ (response : HttpResponse) (hashed_pwd_tail : String)
        (pre post : List (List Char)) (line cnt : List Char),
      pySplitlines response.text.data = pre ++ line :: post →
      (∀ l ∈ pre, (splitOnChar ':' l).length = 2
        ∧ (splitOnChar ':' l).head? ≠ some hashed_pwd_tail.data) →
      splitOnChar ':' line = [hashed_pwd_tail.data, cnt] →
      get_pwd_leaks_count response hashed_pwd_tail = some (PyVal.str ⟨cnt⟩))
    ∧ (∀ (response : HttpResponse) (hashed_pwd_tail : String),
        (∀ line ∈ pySplitlines response.text.data, (splitOnChar ':' line).length = 2
          ∧ (splitOnChar ':' line).head? ≠ some hashed_pwd_tail.data) →
        get_pwd_leaks_count response hashed_pwd_tail = some (PyVal.int 0))
    ∧ get_pwd_leaks_count
        { status_code := 200, text := "1E4C9B93F3F0682250B6CF8331B7EE68FD8:3533661\nAAAAA...:0" }
        "1E4C9B93F3F0682250B6CF8331B7EE68FD8" = some (PyVal.str "3533661")
    ∧ "3533661" = toString 3533661
    ∧ get_pwd_leaks_count
        { status_code := 200, text := "1E4C9B93F3F0682250B6CF8331B7EE68FD8:3533661\nAAAAA...:0" }
        "0000000000000000000000000000000000000000" = some (PyVal.int 0) := by
  refine ⟨?_, ?_, rfl, rfl, rfl⟩
  · intro response hashed_pwd_tail pre post line cnt hsplit hpre hline
    unfold get_pwd_leaks_count
    rw [hsplit]
    exact lookupLines_first_match hashed_pwd_tail.data cnt pre post line hpre hline
  · intro response hashed_pwd_tail h
    exact lookupLines_no_match hashed_pwd_tail.data (pySplitlines response.text.data) h

/-- Witness for C8: a two-record body whose SECOND record carries the
searched tail — the first record is well-formed and non-matching, so the
scan steps over it and returns the second record's count — and, at the
canned body, an absent tail returning the int 0. -/
theorem c8_witness :
    get_pwd_leaks_count
        { status_code := 200, text := "AAAAA:1\n1E4C9B93F3F0682250B6CF8331B7EE68FD8:3533661" }
        "1E4C9B93F3F0682250B6CF8331B7EE68FD8" = some (PyVal.str "3533661")
    ∧ get_pwd_leaks_count
        { status_code := 200, text := "1E4C9B93F3F0682250B6CF8331B7EE68FD8:3533661\nAAAAA...:0" }
        "FFFF" = some (PyVal.int 0) := by
  constructor
  · exact c8_first_exact_match_count.1
      { status_code := 200, text := "AAAAA:1\n1E4C9B93F3F0682250B6CF8331B7EE68FD8:3533661" }
      "1E4C9B93F3F0682250B6CF8331B7EE68FD8"
      ["AAAAA:1".data] []
      "1E4C9B93F3F0682250B6CF8331B7EE68FD8:3533661".data "3533661".data
      (by decide) (by decide) (by decide)
  · exact c8_first_exact_match_count.2.1
      { status_code := 200, text := "1E4C9B93F3F0682250B6CF8331B7EE68FD8:3533661\nAAAAA...:0" }
      "FFFF" (by decide)

/-- C8 counterexample: comparison in the code is case-sensitive, not the
case-insensitive hexadecimal comparison the claim states: a body whose
record tail is the lower-case spelling of the locally computed upper-case
tail (same hexadecimal value, as the character-wise upper-casing shows)
yields 0, where the claim requires the record's count 3533661. -/
theorem c8_counterexample_case_sensitive :
    get_pwd_leaks_count
        { status_code := 200, text := "1e4c9b93f3f0682250b6cf8331b7ee68fd8:3533661" }
        "1E4C9B93F3F0682250B6CF8331B7EE68FD8" = some (PyVal.int 0)
    ∧ "1e4c9b93f3f0682250b6cf8331b7ee68fd8".data.map Char.toUpper
        = "1E4C9B93F3F0682250B6CF8331B7EE68FD8".data :=
  ⟨rfl, by decide⟩

/-- `(a ++ b).data` is list concatenation (definitional). -/
theorem string_data_append (a b : String) : (a ++ b).data = a.data ++ b.data := rfl

/-- `String.mk` then `String.data` is the identity (definitional). -/
theorem string_data_mk (l : List Char) : ((⟨l⟩ : String)).data = l := rfl

/-- `__pwned_api_check` requests exactly one url, built from the url base
and the first 5 characters of the digest only, on both the success and the
failure path. -/
theorem pwned_api_check_requests (sha1hex : String → String)
    (net : String → HttpResponse) (password : String) :
    (pwned_api_check sha1hex net password).2
      = [api_url_base ++ (⟨(sha1hex password).data.take 5⟩ : String)] := by
  unfold pwned_api_check
  cases hreq : request_api_data net
      (api_url_base ++ (⟨(sha1hex password).data.take 5⟩ : String)) with
  | error e => simp only [hreq]
  | ok response => simp only [hreq]

/-- `check` on a non-empty password requests exactly the one url of
`__pwned_api_check`, whatever the response contains. -/
theorem check_requests (sha1hex : String → String) (net : String → HttpResponse)
    (password : String) (has_to_be_hidden : Bool) (hp : password ≠ "") :
    (check sha1hex net password has_to_be_hidden).2
      = [api_url_base ++ (⟨(sha1hex password).data.take 5⟩ : String)] := by
  have hpc := pwned_api_check_requests sha1hex net password
  unfold check
  rw [if_pos hp]
  rcases hval : pwned_api_check sha1hex net password with ⟨optCount, reqs⟩
  rw [hval] at hpc
  cases optCount with
  | none => exact hpc
  | some count =>
    cases htr : count.truthy <;> simp only [htr] <;> exact hpc

/-- A 35-character suffix made of upper-case hexadecimal characters cannot
occur inside the 42-character request url, because every window of length
35 of the url covers position 9 of the url base, the letter 'p'. -/
theorem hash_tail_not_in_url (L : List Char) (hlen : L.length = 40)
    (hhex : ∀ c ∈ L, c ∈ hex_upper_alphabet) :
    ¬ ∃ s t : List Char,
        s ++ L.drop 5 ++ t = (api_url_base ++ (⟨L.take 5⟩ : String)).data := by
  rintro ⟨s, t, heq⟩
  simp only [string_data_append, string_data_mk] at heq
  have hd : (L.drop 5).length = 35 := by rw [List.length_drop, hlen]
  have ht5 : (L.take 5).length = 5 := by simp [List.length_take, hlen]
  have hb : api_url_base.data.length = 37 := by decide
  have hlens : s.length + (L.drop 5).length + t.length
      = api_url_base.data.length + (L.take 5).length := by
    rw [← List.length_append, ← List.length_append, heq, List.length_append]
  have hs7 : s.length ≤ 7 := by omega
  have hsd : (s ++ L.drop 5).length = s.length + 35 := by
    rw [List.length_append, hd]
  have hL9 : ((s ++ L.drop 5) ++ t)[9]? = (L.drop 5)[9 - s.length]? := by
    rw [List.getElem?_append_left (by omega), List.getElem?_append_right (by omega)]
  have hR9 : (api_url_base.data ++ L.take 5)[9]? = some 'p' := by
    rw [List.getElem?_append_left (by omega)]
    decide
  have hp9 : (L.drop 5)[9 - s.length]? = some 'p' := by
    rw [← hL9, heq, hR9]
  have hpmem : 'p' ∈ L.drop 5 := List.getElem?_mem hp9
  have hphex : 'p' ∈ hex_upper_alphabet := hhex 'p' (List.drop_subset 5 L hpmem)
  simp [hex_upper_alphabet] at hphex

/-- C6: for every non-empty password, `check` issues exactly one outbound
request, and that request is the range url built from the first 5
characters of the digest alone: any two non-empty passwords whose digests
share that 5-character beginning produce the identical request list, and
(for a digest of the SHA-1 shape: 40 upper-case hexadecimal characters)
the 35-character hash tail does not occur anywhere in the requested url;
the password itself is not an input of the url at all. -/
theorem c6_request_depends_only_on_first_5_digest_chars
    (sha1hex : String → String) (net : String → HttpResponse)
    (password : String) (has_to_be_hidden : Bool) (hp : password ≠ "") :
    (check sha1hex net password has_to_be_hidden).2
        = [api_url_base ++ (⟨(sha1hex password).data.take 5⟩ : String)]
    ∧ (∀ (password2 : String) (hidden2 : Bool), password2 ≠ "" →
        (sha1hex password).data.take 5 = (sha1hex password2).data.take 5 →
        (check sha1hex net password has_to_be_hidden).2
          = (check sha1hex net password2 hidden2).2)
    ∧ ((sha1hex password).data.length = 40 →
        (∀ c ∈ (sha1hex password).data, c ∈ hex_upper_alphabet) →
        ¬ ∃ s t : List Char,
            s ++ (sha1hex password).data.drop 5 ++ t
              = (api_url_base ++ (⟨(sha1hex password).data.take 5⟩ : String)).data) := by
  refine ⟨check_requests sha1hex net password has_to_be_hidden hp, ?_, ?_⟩
  · intro password2 hidden2 hp2 htake
    rw [check_requests sha1hex net password has_to_be_hidden hp,
      check_requests sha1hex net password2 hidden2 hp2, htake]
  · intro hlen hhex
    exact hash_tail_not_in_url (sha1hex password).data hlen hhex

/-- Witness for C6 at a constant digest function, the password "a" and an
empty-body 200 service: one request to the url made of the first 5 digest
characters, the same request list as for the password "b", and no
occurrence of the hash tail in the url. -/
theorem c6_witness :
    (check sha1hex_const net_ok_empty "a" true).2
        = ["https://api.pwnedpasswords.com/range/01234"]
    ∧ (check sha1hex_const net_ok_empty "a" true).2
        = (check sha1hex_const net_ok_empty "b" false).2
    ∧ ¬ ∃ s t : List Char,
        s ++ (sha1hex_const "a").data.drop 5 ++ t
          = (api_url_base ++ (⟨(sha1hex_const "a").data.take 5⟩ : String)).data := by
  have h := c6_request_depends_only_on_first_5_digest_chars sha1hex_const net_ok_empty
    "a" true (by decide)
  exact ⟨h.1, h.2.1 "b" false (by decide) rfl, h.2.2 (by decide) (by decide)⟩

/-!
Infrastructure for the generator correctness claim (C3): the filling loop
invariant, preservation of satisfaction predicates under appends, and the
character-class facts.
-/

/-- `(s.push c).data` appends one character (definitional). -/
theorem string_data_push (s : String) (c : Char) : (s.push c).data = s.data ++ [c] := rfl

/-- A satisfied any-predicate stays satisfied when a character is pushed
before the customized end. -/
theorem any_push_mid (p : Char → Bool) (pw e : String) (ch : Char)
    (h : (pw ++ e).data.any p = true) : ((pw.push ch) ++ e).data.any p = true := by
  simp only [string_data_append, string_data_push, List.any_append, Bool.or_eq_true] at h ⊢
  tauto

/-- A pushed character with the property satisfies the any-predicate. -/
theorem any_push_new (p : Char → Bool) (pw e : String) (ch : Char)
    (h : p ch = true) : ((pw.push ch) ++ e).data.any p = true := by
  simp only [string_data_append, string_data_push, List.any_append, List.any_cons,
    List.any_nil, Bool.or_eq_true]
  tauto

/-- `random.choice` on a non-empty list returns an element of the list. -/
theorem choice_mem (l : List Char) (r : Nat) (h : l ≠ []) : choice l r ∈ l := by
  unfold choice
  have hl : 0 < l.length := List.length_pos.mpr h
  have hi : r % l.length < l.length := Nat.mod_lt _ hl
  rw [List.getD_eq_getElem?_getD, List.getElem?_eq_getElem hi]
  exact List.getElem_mem hi

/-- Every character of the lower-case alphabet is lower case. -/
theorem ascii_lowercase_isLower : ∀ c ∈ ascii_lowercase, c.isLower = true := by decide

/-- Every character of the upper-case alphabet is upper case. -/
theorem ascii_uppercase_isUpper : ∀ c ∈ ascii_uppercase, c.isUpper = true := by decide

/-- `str(random.randint(0, 9))` is one of the ten digit characters. -/
theorem digitChar_mod_mem_digits (r : Nat) : Nat.digitChar (r % 10) ∈ digits := by
  have hb : ∀ k < 10, Nat.digitChar k ∈ digits := by decide
  exact hb _ (Nat.mod_lt _ (by decide))

/-- `str(random.randint(0, 9))` is a digit character. -/
theorem digitChar_mod_isDigit (r : Nat) : (Nat.digitChar (r % 10)).isDigit = true := by
  have hb : ∀ k < 10, (Nat.digitChar k).isDigit = true := by decide
  exact hb _ (Nat.mod_lt _ (by decide))

/-- The lower-case alphabet is part of the fill pool when the lower-case
rule is selected, and so on for the other three classes. -/
theorem mem_additional_of_lower (rules : PasswordRules)
    (h : rules.is_lower_case_required = true) :
    ∀ c ∈ ascii_lowercase, c ∈ additional_chars rules := by
  intro c hc
  simp [additional_chars, h, List.mem_append]
  tauto

theorem mem_additional_of_upper (rules : PasswordRules)
    (h : rules.is_upper_case_required = true) :
    ∀ c ∈ ascii_uppercase, c ∈ additional_chars rules := by
  intro c hc
  simp [additional_chars, h, List.mem_append]
  tauto

theorem mem_additional_of_number (rules : PasswordRules)
    (h : rules.is_number_required = true) :
    ∀ c ∈ digits, c ∈ additional_chars rules := by
  intro c hc
  simp [additional_chars, h, List.mem_append]
  tauto

theorem mem_additional_of_special (rules : PasswordRules)
    (h : rules.is_special_character_required = true) :
    ∀ c ∈ rules.allowed_special_characters, c ∈ additional_chars rules := by
  intro c hc
  simp [additional_chars, h, List.mem_append]
  tauto

/-- Number of required presence rules not marked satisfied in the state. -/
def unsatCount (rules : PasswordRules) (st : GenState) : Nat :=
  (if rules.is_lower_case_required && !st.lowSat then 1 else 0)
  + (if rules.is_upper_case_required && !st.upSat then 1 else 0)
  + (if rules.is_number_required && !st.numSat then 1 else 0)
  + (if rules.is_special_character_required && !st.specSat then 1 else 0)

/-- The loop invariant: a satisfaction mark of a required rule is only set
when the password built so far, followed by the customized end, really
satisfies the rule. -/
def SatInv (rules : PasswordRules) (st : GenState) : Prop :=
  (rules.is_lower_case_required = true → st.lowSat = true →
    rules.is_lower_case_rule_satisfied (st.pw ++ rules.customized_end) = true)
  ∧ (rules.is_upper_case_required = true → st.upSat = true →
    rules.is_upper_case_rule_satisfied (st.pw ++ rules.customized_end) = true)
  ∧ (rules.is_number_required = true → st.numSat = true →
    rules.is_number_rule_satisfied (st.pw ++ rules.customized_end) = true)
  ∧ (rules.is_special_character_required = true → st.specSat = true →
    rules.is_special_character_rule_satisfied (st.pw ++ rules.customized_end) = true)

/-- A satisfied any-predicate is preserved by replacing the built password
with any extension of it. -/
theorem any_extend_list (p : Char → Bool) (a b e : String) (m : List Char)
    (hb : b.data = a.data ++ m) (h : (a ++ e).data.any p = true) :
    (b ++ e).data.any p = true := by
  simp only [string_data_append, hb, List.any_append, Bool.or_eq_true] at h ⊢
  tauto

/-- The filling loop of `generate`: started with enough fuel for every
still-unsatisfied required rule, it preserves the invariant, leaves no
required rule unmarked, and only appends characters of the fill pool. -/
theorem fillLoop_spec (rules : PasswordRules) (rand : Nat → Nat)
    (hspec : rules.is_special_character_required = true →
      rules.allowed_special_characters ≠ []) :
    ∀ (fuel : Nat) (st : GenState), unsatCount rules st ≤ fuel → SatInv rules st →
      SatInv rules (fillLoop rules rand fuel st)
      ∧ unsatCount rules (fillLoop rules rand fuel st) = 0
      ∧ ∃ m : List Char,
          (fillLoop rules rand fuel st).pw.data = st.pw.data ++ m
          ∧ ∀ c ∈ m, c ∈ additional_chars rules := by
  intro fuel
  induction fuel with
  | zero =>
    intro st hle hinv
    exact ⟨hinv, Nat.le_zero.mp hle, [], by simp [fillLoop], by simp⟩
  | succ n ih =>
    intro st hle hinv
    obtain ⟨hi1, hi2, hi3, hi4⟩ := hinv
    by_cases h1 : (rules.is_lower_case_required && !st.lowSat) = true
    · obtain ⟨hl, hns⟩ : rules.is_lower_case_required = true ∧ st.lowSat = false := by
        simpa using h1
      have hred : fillLoop rules rand (n + 1) st
          = fillLoop rules rand n
            { st with pw := st.pw.push (choice ascii_lowercase (rand st.c)),
                      lowSat := true, c := st.c + 1 } := by
        conv_lhs => rw [fillLoop]
        rw [if_pos h1]
      have hinv' : SatInv rules
          { st with pw := st.pw.push (choice ascii_lowercase (rand st.c)),
                    lowSat := true, c := st.c + 1 } := by
        refine ⟨?_, ?_, ?_, ?_⟩
        · intro _ _
          exact any_push_new _ _ _ _
            (ascii_lowercase_isLower _ (choice_mem _ _ (by decide)))
        · intro hr hs
          exact any_push_mid _ _ _ _ (hi2 hr hs)
        · intro hr hs
          exact any_push_mid _ _ _ _ (hi3 hr hs)
        · intro hr hs
          exact any_push_mid _ _ _ _ (hi4 hr hs)
      have hle' : unsatCount rules
          { st with pw := st.pw.push (choice ascii_lowercase (rand st.c)),
                    lowSat := true, c := st.c + 1 } ≤ n := by
        simp [unsatCount, hl, hns] at hle ⊢
        omega
      obtain ⟨hIa, hIb, m, hm, hmc⟩ := ih _ hle' hinv'
      rw [hred]
      refine ⟨hIa, hIb, choice ascii_lowercase (rand st.c) :: m, ?_, ?_⟩
      · rw [hm]
        simp [string_data_push]
      · intro c hc
        rcases List.mem_cons.mp hc with hc | hc
        · exact hc ▸ mem_additional_of_lower rules hl _ (choice_mem _ _ (by decide))
        · exact hmc c hc
    · by_cases h2 : (rules.is_upper_case_required && !st.upSat) = true
      · obtain ⟨hl, hns⟩ : rules.is_upper_case_required = true ∧ st.upSat = false := by
          simpa using h2
        have hred : fillLoop rules rand (n + 1) st
            = fillLoop rules rand n
              { st with pw := st.pw.push (choice ascii_uppercase (rand st.c)),
                        upSat := true, c := st.c + 1 } := by
          conv_lhs => rw [fillLoop]
          rw [if_neg h1, if_pos h2]
        have hinv' : SatInv rules
            { st with pw := st.pw.push (choice ascii_uppercase (rand st.c)),
                      upSat := true, c := st.c + 1 } := by
          refine ⟨?_, ?_, ?_, ?_⟩
          · intro hr hs
            exact any_push_mid _ _ _ _ (hi1 hr hs)
          · intro _ _
            exact any_push_new _ _ _ _
              (ascii_uppercase_isUpper _ (choice_mem _ _ (by decide)))
          · intro hr hs
            exact any_push_mid _ _ _ _ (hi3 hr hs)
          · intro hr hs
            exact any_push_mid _ _ _ _ (hi4 hr hs)
        have hle' : unsatCount rules
            { st with pw := st.pw.push (choice ascii_uppercase (rand st.c)),
                      upSat := true, c := st.c + 1 } ≤ n := by
          simp [unsatCount, hl, hns] at hle ⊢
          omega
        obtain ⟨hIa, hIb, m, hm, hmc⟩ := ih _ hle' hinv'
        rw [hred]
        refine ⟨hIa, hIb, choice ascii_uppercase (rand st.c) :: m, ?_, ?_⟩
        · rw [hm]
          simp [string_data_push]
        · intro c hc
          rcases List.mem_cons.mp hc with hc | hc
          · exact hc ▸ mem_additional_of_upper rules hl _ (choice_mem _ _ (by decide))
          · exact hmc c hc
      · by_cases h3 : (rules.is_number_required && !st.numSat) = true
        · obtain ⟨hl, hns⟩ : rules.is_number_required = true ∧ st.numSat = false := by
            simpa using h3
          have hred : fillLoop rules rand (n + 1) st
              = fillLoop rules rand n
                { st with pw := st.pw.push (Nat.digitChar (rand st.c % 10)),
                          numSat := true, c := st.c + 1 } := by
            conv_lhs => rw [fillLoop]
            rw [if_neg h1, if_neg h2, if_pos h3]
          have hinv' : SatInv rules
              { st with pw := st.pw.push (Nat.digitChar (rand st.c % 10)),
                        numSat := true, c := st.c + 1 } := by
            refine ⟨?_, ?_, ?_, ?_⟩
            · intro hr hs
              exact any_push_mid _ _ _ _ (hi1 hr hs)
            · intro hr hs
              exact any_push_mid _ _ _ _ (hi2 hr hs)
            · intro _ _
              exact any_push_new _ _ _ _ (digitChar_mod_isDigit (rand st.c))
            · intro hr hs
              exact any_push_mid _ _ _ _ (hi4 hr hs)
          have hle' : unsatCount rules
              { st with pw := st.pw.push (Nat.digitChar (rand st.c % 10)),
                        numSat := true, c := st.c + 1 } ≤ n := by
            simp [unsatCount, hl, hns] at hle ⊢
            omega
          obtain ⟨hIa, hIb, m, hm, hmc⟩ := ih _ hle' hinv'
          rw [hred]
          refine ⟨hIa, hIb, Nat.digitChar (rand st.c % 10) :: m, ?_, ?_⟩
          · rw [hm]
            simp [string_data_push]
          · intro c hc
            rcases List.mem_cons.mp hc with hc | hc
            · exact hc ▸ mem_additional_of_number rules hl _ (digitChar_mod_mem_digits _)
            · exact hmc c hc
        · by_cases h4 : (rules.is_special_character_required && !st.specSat) = true
          · obtain ⟨hl, hns⟩ : rules.is_special_character_required = true ∧ st.specSat = false := by
              simpa using h4
            have hne : rules.allowed_special_characters ≠ [] := hspec hl
            have hred : fillLoop rules rand (n + 1) st
                = fillLoop rules rand n
                  { st with
                    pw := st.pw.push (choice rules.allowed_special_characters (rand st.c)),
                    specSat := true, c := st.c + 1 } := by
              conv_lhs => rw [fillLoop]
              rw [if_neg h1, if_neg h2, if_neg h3, if_pos h4]
            have hinv' : SatInv rules
                { st with
                  pw := st.pw.push (choice rules.allowed_special_characters (rand st.c)),
                  specSat := true, c := st.c + 1 } := by
              refine ⟨?_, ?_, ?_, ?_⟩
              · intro hr hs
                exact any_push_mid _ _ _ _ (hi1 hr hs)
              · intro hr hs
                exact any_push_mid _ _ _ _ (hi2 hr hs)
              · intro hr hs
                exact any_push_mid _ _ _ _ (hi3 hr hs)
              · intro _ _
                exact any_push_new _ _ _ _
                  (List.elem_iff.mpr (choice_mem _ _ hne))
            have hle' : unsatCount rules
                { st with
                  pw := st.pw.push (choice rules.allowed_special_characters (rand st.c)),
                  specSat := true, c := st.c + 1 } ≤ n := by
              simp [unsatCount, hl, hns] at hle ⊢
              omega
            obtain ⟨hIa, hIb, m, hm, hmc⟩ := ih _ hle' hinv'
            rw [hred]
            refine ⟨hIa, hIb,
              choice rules.allowed_special_characters (rand st.c) :: m, ?_, ?_⟩
            · rw [hm]
              simp [string_data_push]
            · intro c hc
              rcases List.mem_cons.mp hc with hc | hc
              · exact hc ▸ mem_additional_of_special rules hl _ (choice_mem _ _ hne)
              · exact hmc c hc
          · have hf1 : (rules.is_lower_case_required && !st.lowSat) = false :=
              Bool.not_eq_true _ ▸ eq_false_of_ne_true h1
            have hf2 : (rules.is_upper_case_required && !st.upSat) = false :=
              Bool.not_eq_true _ ▸ eq_false_of_ne_true h2
            have hf3 : (rules.is_number_required && !st.numSat) = false :=
              Bool.not_eq_true _ ▸ eq_false_of_ne_true h3
            have hf4 : (rules.is_special_character_required && !st.specSat) = false :=
              Bool.not_eq_true _ ▸ eq_false_of_ne_true h4
            have hred : fillLoop rules rand (n + 1) st = st := by
              conv_lhs => rw [fillLoop]
              rw [if_neg h1, if_neg h2, if_neg h3, if_neg h4]
            have hz : unsatCount rules st = 0 := by
              simp [unsatCount, hf1, hf2, hf3, hf4]
            rw [hred]
            exact ⟨⟨hi1, hi2, hi3, hi4⟩, hz, [], by simp, by simp⟩

/-- The two facts of a Consistent verdict that generation relies on:
at least one presence rule is selected, and a required special-character
class has a non-empty alphabet. -/
theorem check_true_facts (r : PasswordRules) (s : String)
    (h : r.check_rules_consistency = (true, s)) :
    r.get_nb_of_presence_rules ≠ 0
    ∧ (r.is_special_character_required = true → r.allowed_special_characters ≠ []) := by
  constructor
  · intro h0
    simp only [PasswordRules.check_rules_consistency, h0] at h
    simp at h
  · intro hsp hemp
    have hempb : r.allowed_special_characters.isEmpty = true := by simp [hemp]
    simp only [PasswordRules.check_rules_consistency, hsp, hempb] at h
    repeat' split at h
    all_goals simp_all

/-- Fuel bookkeeping for one class: the count of a satisfied mark plus the
count of the corresponding unsatisfied mark is the count of the rule. -/
theorem bool_count_split (a p : Bool) :
    (if (a && p) = true then (1 : Nat) else 0)
      + (if (a && !(a && p)) = true then 1 else 0)
    = if a = true then 1 else 0 := by
  cases a <;> cases p <;> rfl

/-- The initial unsatisfied count is the presence-rule count minus the
rules satisfied by the customized strings, class by class. -/
theorem unsat_le_nb_sub_sat (a1 a2 a3 a4 p1 p2 p3 p4 : Bool) :
    (if (a1 && !(a1 && p1)) = true then (1 : Nat) else 0)
      + (if (a2 && !(a2 && p2)) = true then 1 else 0)
      + (if (a3 && !(a3 && p3)) = true then 1 else 0)
      + (if (a4 && !(a4 && p4)) = true then 1 else 0)
    ≤ ((if a1 = true then (1 : Nat) else 0) + (if a2 = true then 1 else 0)
        + (if a3 = true then 1 else 0) + (if a4 = true then 1 else 0))
      - ((if (a1 && p1) = true then (1 : Nat) else 0) + (if (a2 && p2) = true then 1 else 0)
        + (if (a3 && p3) = true then 1 else 0) + (if (a4 && p4) = true then 1 else 0)) := by
  cases a1 <;> cases p1 <;> cases a2 <;> cases p2 <;>
    cases a3 <;> cases p3 <;> cases a4 <;> cases p4 <;> decide

/-- The fill pool is non-empty once validation passed: some rule is
selected and a selected special class has characters. -/
theorem additional_chars_ne_nil (r : PasswordRules)
    (hnb : r.get_nb_of_presence_rules ≠ 0)
    (hspec : r.is_special_character_required = true → r.allowed_special_characters ≠ []) :
    additional_chars r ≠ [] := by
  intro hemp
  unfold additional_chars at hemp
  obtain ⟨h123, h4⟩ := List.append_eq_nil.mp hemp
  obtain ⟨h12, h3⟩ := List.append_eq_nil.mp h123
  obtain ⟨h1, h2⟩ := List.append_eq_nil.mp h12
  have hlf : r.is_lower_case_required = false := by
    by_cases hl : r.is_lower_case_required = true
    · rw [hl, if_pos rfl] at h1
      exact absurd h1 (by decide)
    · exact eq_false_of_ne_true hl
  have huf : r.is_upper_case_required = false := by
    by_cases hl : r.is_upper_case_required = true
    · rw [hl, if_pos rfl] at h2
      exact absurd h2 (by decide)
    · exact eq_false_of_ne_true hl
  have hnf : r.is_number_required = false := by
    by_cases hl : r.is_number_required = true
    · rw [hl, if_pos rfl] at h3
      exact absurd h3 (by decide)
    · exact eq_false_of_ne_true hl
  have hsf : r.is_special_character_required = false := by
    by_cases hl : r.is_special_character_required = true
    · rw [hl, if_pos rfl] at h4
      exact absurd h4 (hspec hl)
    · exact eq_false_of_ne_true hl
  exact hnb (by simp [PasswordRules.get_nb_of_presence_rules, hlf, huf, hnf, hsf])

/-- The initial state's password is the customized beginning, in both
branches. -/
theorem init_state_pw (rules : PasswordRules) :
    (init_state rules).pw = rules.customized_beginning := by
  unfold init_state
  split <;> rfl

/-- The initial state satisfies the loop invariant: a mark is only set from
a rule being required and satisfied by `customized_beginning ++
customized_end`, and the initial password is the customized beginning. -/
theorem init_inv (rules : PasswordRules) : SatInv rules (init_state rules) := by
  unfold init_state
  split
  · refine ⟨?_, ?_, ?_, ?_⟩ <;> intro hr hs <;> simp at hs <;> exact hs.2
  · refine ⟨?_, ?_, ?_, ?_⟩ <;> intro hr hs <;> simp at hs

/-- The loop fuel `nb_of_unsatisfied_rules` is enough for every
still-unsatisfied required rule of the initial state. -/
theorem init_le (rules : PasswordRules) :
    unsatCount rules (init_state rules) ≤ nb_of_unsatisfied_rules rules := by
  unfold init_state nb_of_unsatisfied_rules
  by_cases hc : (has_customization rules
      && decide (rules.get_nb_of_rules_satisfied_by_string (customized_string rules) > 0))
      = true
  · obtain ⟨hcust, hpos⟩ : has_customization rules = true
        ∧ 0 < rules.get_nb_of_rules_satisfied_by_string (customized_string rules) := by
      simpa using hc
    rw [if_pos hc, if_pos hcust]
    exact unsat_le_nb_sub_sat _ _ _ _ _ _ _ _
  · rw [if_neg hc]
    have hall : unsatCount rules
        { pw := rules.customized_beginning, lowSat := false, upSat := false,
          numSat := false, specSat := false, c := 0 }
        = rules.get_nb_of_presence_rules := by
      cases h1 : rules.is_lower_case_required <;>
        cases h2 : rules.is_upper_case_required <;>
        cases h3 : rules.is_number_required <;>
        cases h4 : rules.is_special_character_required <;>
        simp [unsatCount, PasswordRules.get_nb_of_presence_rules, h1, h2, h3, h4]
    by_cases hcust : has_customization rules = true
    · rw [if_pos hcust]
      have hsat0 : rules.get_nb_of_rules_satisfied_by_string (customized_string rules) = 0 := by
        rcases Nat.eq_zero_or_pos
            (rules.get_nb_of_rules_satisfied_by_string (customized_string rules)) with hz | hp
        · exact hz
        · exact absurd (by simp [hcust, hp]) hc
      rw [hsat0, Nat.sub_zero]
      exact le_of_eq hall
    · rw [if_neg hcust]
      exact le_of_eq hall

/-- When no required rule is left unmarked, every required rule's mark is
set. -/
theorem unsatCount_zero (rules : PasswordRules) (st : GenState)
    (h : unsatCount rules st = 0) :
    (rules.is_lower_case_required = true → st.lowSat = true)
    ∧ (rules.is_upper_case_required = true → st.upSat = true)
    ∧ (rules.is_number_required = true → st.numSat = true)
    ∧ (rules.is_special_character_required = true → st.specSat = true) := by
  simp only [unsatCount] at h
  refine ⟨?_, ?_, ?_, ?_⟩ <;> intro hr
  · cases hs : st.lowSat
    · simp [hr, hs] at h
    · rfl
  · cases hs : st.upSat
    · simp [hr, hs] at h
    · rfl
  · cases hs : st.numSat
    · simp [hr, hs] at h
    · rfl
  · cases hs : st.specSat
    · simp [hr, hs] at h
    · rfl

/-- The random completion loop only appends characters of the pool. -/
theorem appendChoices_spec (pool : List Char) (rand : Nat → Nat) (hpool : pool ≠ []) :
    ∀ (k : Nat) (pw : String) (c : Nat),
      ∃ m : List Char, (appendChoices pool rand k pw c).1.data = pw.data ++ m
        ∧ ∀ x ∈ m, x ∈ pool := by
  intro k
  induction k with
  | zero =>
    intro pw c
    exact ⟨[], by simp [appendChoices], by simp⟩
  | succ n ih =>
    intro pw c
    obtain ⟨m, hm, hmc⟩ := ih (pw.push (choice pool (rand c))) (c + 1)
    refine ⟨choice pool (rand c) :: m, ?_, ?_⟩
    · show (appendChoices pool rand (n + 1) pw c).1.data = _
      have hstep : appendChoices pool rand (n + 1) pw c
          = appendChoices pool rand n (pw.push (choice pool (rand c))) (c + 1) := rfl
      rw [hstep, hm]
      simp [string_data_push]
    · intro x hx
      rcases List.mem_cons.mp hx with hx | hx
      · exact hx ▸ choice_mem _ _ hpool
      · exact hmc x hx

/-- Two successive completion loops only extend the password with pool
characters. -/
theorem appendChoices_twice (pool : List Char) (rand : Nat → Nat) (hpool : pool ≠ [])
    (k1 : Nat) (pw : String) (c : Nat) (k2 : Nat) :
    ∃ m : List Char,
      (appendChoices pool rand k2 (appendChoices pool rand k1 pw c).1
        (appendChoices pool rand k1 pw c).2).1.data = pw.data ++ m
      ∧ ∀ x ∈ m, x ∈ pool := by
  obtain ⟨m1, hm1, hc1⟩ := appendChoices_spec pool rand hpool k1 pw c
  obtain ⟨m2, hm2, hc2⟩ := appendChoices_spec pool rand hpool k2
    (appendChoices pool rand k1 pw c).1 (appendChoices pool rand k1 pw c).2
  refine ⟨m1 ++ m2, ?_, ?_⟩
  · rw [hm2, hm1, List.append_assoc]
  · intro x hx
    exact (List.mem_append.mp hx).elim (hc1 x) (hc2 x)

/-- The random completion and the top-up only extend the loop's password
with pool characters. -/
theorem after_topup_extends (rules : PasswordRules) (rand : Nat → Nat)
    (hadd : additional_chars rules ≠ []) :
    ∃ m : List Char,
      (after_topup rules rand).1.data
        = (fillLoop rules rand (nb_of_unsatisfied_rules rules) (init_state rules)).pw.data ++ m
      ∧ ∀ x ∈ m, x ∈ additional_chars rules := by
  simp only [after_topup, after_fill]
  split <;> split
  all_goals
    first
      | exact appendChoices_twice (additional_chars rules) rand hadd _ _ _ _
      | exact appendChoices_spec (additional_chars rules) rand hadd _ _ _
      | exact ⟨[], by simp, by simp⟩

/-- The password built after validation satisfies every selected presence
rule and consists of the customized beginning, characters of the fill
pool, and the customized end. -/
theorem generate_body_spec (rules : PasswordRules) (rand : Nat → Nat)
    (hnb : rules.get_nb_of_presence_rules ≠ 0)
    (hspec : rules.is_special_character_required = true →
      rules.allowed_special_characters ≠ []) :
    (rules.is_lower_case_required = true →
      rules.is_lower_case_rule_satisfied (generate_body rules rand) = true)
    ∧ (rules.is_upper_case_required = true →
      rules.is_upper_case_rule_satisfied (generate_body rules rand) = true)
    ∧ (rules.is_number_required = true →
      rules.is_number_rule_satisfied (generate_body rules rand) = true)
    ∧ (rules.is_special_character_required = true →
      rules.is_special_character_rule_satisfied (generate_body rules rand) = true)
    ∧ ∃ mid : List Char,
        (generate_body rules rand).data
          = rules.customized_beginning.data ++ mid ++ rules.customized_end.data
        ∧ ∀ c ∈ mid, c ∈ additional_chars rules := by
  have hadd := additional_chars_ne_nil rules hnb hspec
  obtain ⟨hInv, hCnt, m1, hm1, hc1⟩ := fillLoop_spec rules rand hspec
    (nb_of_unsatisfied_rules rules) (init_state rules) (init_le rules) (init_inv rules)
  obtain ⟨m2, hm2, hc2⟩ := after_topup_extends rules rand hadd
  set st1 := fillLoop rules rand (nb_of_unsatisfied_rules rules) (init_state rules) with hst1
  obtain ⟨hf1, hf2, hf3, hf4⟩ := unsatCount_zero rules st1 hCnt
  obtain ⟨hI1, hI2, hI3, hI4⟩ := hInv
  have hresult : (generate_body rules rand).data
      = (after_topup rules rand).1.data ++ rules.customized_end.data := by
    unfold generate_body
    split
    · exact string_data_append _ _
    · next hno =>
      have hlen0 : rules.customized_end.data.length = 0 := Nat.eq_zero_of_not_pos hno
      rw [List.length_eq_zero.mp hlen0, List.append_nil]
  have hdecomp : (generate_body rules rand).data
      = rules.customized_beginning.data ++ (m1 ++ m2) ++ rules.customized_end.data := by
    rw [hresult, hm2, hm1, init_state_pw]
    simp [List.append_assoc]
  have hpred : ∀ p : Char → Bool,
      (st1.pw ++ rules.customized_end).data.any p = true →
      (generate_body rules rand).data.any p = true := by
    intro p hp
    have hx := any_extend_list p st1.pw ((after_topup rules rand).1)
      rules.customized_end m2 hm2 hp
    rw [string_data_append] at hx
    rw [hresult]
    exact hx
  refine ⟨?_, ?_, ?_, ?_, m1 ++ m2, hdecomp, ?_⟩
  · intro hr
    exact hpred _ (hI1 hr (hf1 hr))
  · intro hr
    exact hpred _ (hI2 hr (hf2 hr))
  · intro hr
    exact hpred _ (hI3 hr (hf3 hr))
  · intro hr
    exact hpred _ (hI4 hr (hf4 hr))
  · intro c hc
    exact (List.mem_append.mp hc).elim (hc1 c) (hc2 c)

/-- C3 amended: for every rule set the validator accepts and every
randomness stream, `generate` returns a password in which every selected
presence rule is satisfied, and whose portion outside the customized
beginning and end consists only of characters of the fill pool — the union
`additional_chars` of the alphabets of the selected classes (a class not
selected contributes nothing to the pool).  The original per-class reading
("no character of an unrequested class appears") fails when
`allowed_special_characters` overlaps another class's alphabet, see the
counterexample. -/
theorem c3_generated_chars_come_from_required_classes (rules : PasswordRules)
    (rand : Nat → Nat) (h : rules.check_rules_consistency = (true, "")) :
    ∃ s : String, generate rules rand = Except.ok s
      ∧ (rules.is_lower_case_required = true →
        rules.is_lower_case_rule_satisfied s = true)
      ∧ (rules.is_upper_case_required = true →
        rules.is_upper_case_rule_satisfied s = true)
      ∧ (rules.is_number_required = true →
        rules.is_number_rule_satisfied s = true)
      ∧ (rules.is_special_character_required = true →
        rules.is_special_character_rule_satisfied s = true)
      ∧ ∃ mid : List Char,
          s.data = rules.customized_beginning.data ++ mid ++ rules.customized_end.data
          ∧ ∀ c ∈ mid, c ∈ additional_chars rules := by
  obtain ⟨hnb, hspec⟩ := check_true_facts rules "" h
  obtain ⟨p1, p2, p3, p4, mid, hmid, hmc⟩ := generate_body_spec rules rand hnb hspec
  refine ⟨generate_body rules rand, ?_, p1, p2, p3, p4, mid, hmid, hmc⟩
  unfold generate
  rw [h]

/-- A minimal consistent rule set: only the lower-case rule is selected. -/
def rules_lower_only : PasswordRules := { is_lower_case_required := true }

/-- Witness for C3 at `rules_lower_only` and the zero randomness stream. -/
theorem c3_witness :
    ∃ s : String, generate rules_lower_only (fun _ => 0) = Except.ok s
      ∧ (rules_lower_only.is_lower_case_required = true →
        rules_lower_only.is_lower_case_rule_satisfied s = true)
      ∧ (rules_lower_only.is_upper_case_required = true →
        rules_lower_only.is_upper_case_rule_satisfied s = true)
      ∧ (rules_lower_only.is_number_required = true →
        rules_lower_only.is_number_rule_satisfied s = true)
      ∧ (rules_lower_only.is_special_character_required = true →
        rules_lower_only.is_special_character_rule_satisfied s = true)
      ∧ ∃ mid : List Char,
          s.data = rules_lower_only.customized_beginning.data ++ mid
            ++ rules_lower_only.customized_end.data
          ∧ ∀ c ∈ mid, c ∈ additional_chars rules_lower_only :=
  c3_generated_chars_come_from_required_classes rules_lower_only (fun _ => 0) rfl
